import Mathlib

/-!
Verification development for the MedAssist-Edge structured-output
extraction core: the JSON recovery pipeline of the SOAP, differential
diagnosis and patient-explanation agents, and the rule-based guideline
passage classifier and aggregator.

Strings are modelled as lists of characters; the Python string and
regular-expression operations the agents use are embedded as executable
Lean functions over the ASCII fragment they are exercised on.
-/

set_option maxRecDepth 100000

namespace MedAssist

/-- Text is modelled as a list of characters. -/
abbrev Str := List Char

/-- Convert a Lean string literal to the character-list model. -/
def toL (s : String) : Str := s.toList

/-- The left-brace character. -/
def lbrace : Char := Char.ofNat 123

/-- The right-brace character. -/
def rbrace : Char := Char.ofNat 125

/-- The double-quote character. -/
def quoteCh : Char := Char.ofNat 34

/-- The backslash character. -/
def backslashCh : Char := Char.ofNat 92

/-- The backtick character. -/
def backtickCh : Char := Char.ofNat 96

/-- Python `str.strip` whitespace and the `re` module's `\s` class
(ASCII fragment): space, tab, newline, carriage return, vertical tab,
form feed. -/
def pyWs (c : Char) : Bool :=
  c = ' ' || c = '\t' || c = '\n' || c = '\r' || c = Char.ofNat 11 || c = Char.ofNat 12

/-- JSON whitespace accepted by Python `json.loads` around tokens. -/
def jsonWsCh (c : Char) : Bool :=
  c = ' ' || c = '\t' || c = '\n' || c = '\r'

/-- ASCII decimal digit. -/
def isDigitCh (c : Char) : Bool := '0' ≤ c && c ≤ '9'

/-- ASCII uppercase letter. -/
def isUpperCh (c : Char) : Bool := 'A' ≤ c && c ≤ 'Z'

/-- ASCII lowercase letter. -/
def isLowerCh (c : Char) : Bool := 'a' ≤ c && c ≤ 'z'

/-- Regex word character `\w` (ASCII fragment): letter, digit or underscore. -/
def wordCh (c : Char) : Bool :=
  isUpperCh c || isLowerCh c || isDigitCh c || c = '_'

/-- ASCII lower-casing, as Python `str.lower` acts on ASCII text. -/
def lowerCh (c : Char) : Char :=
  if isUpperCh c then Char.ofNat (c.toNat + 32) else c

/-- Lower-case a string (ASCII fragment of Python `str.lower`). -/
def lowerStr (s : Str) : Str := s.map lowerCh

/-- Python `str.lstrip()` with default whitespace. -/
def pyStripL (s : Str) : Str := s.dropWhile pyWs

/-- Python `str.strip()` with default whitespace. -/
def pyStrip (s : Str) : Str := ((pyStripL s).reverse.dropWhile pyWs).reverse

/-- Python `str.rstrip` restricted to one character. -/
def rstripChar (c : Char) (s : Str) : Str :=
  (s.reverse.dropWhile (· = c)).reverse

/-- Indices at which a given character occurs. -/
def idxAllGo (c : Char) : Str → Nat → List Nat
  | [], _ => []
  | d :: t, i => if d = c then i :: idxAllGo c t (i + 1) else idxAllGo c t (i + 1)

/-- All indices of a character in a string, ascending. -/
def idxAll (c : Char) (s : Str) : List Nat := idxAllGo c s 0

/-- Python `str.find(c, i)`: first index at or after `i` holding `c`,
as an option instead of `-1`. -/
def findIdxFrom (c : Char) (s : Str) (i : Nat) : Option Nat :=
  ((idxAll c s).filter (fun j => i ≤ j)).head?

/-- Substring containment, as an executable scan. -/
def containsSub (pat : Str) : Str → Bool
  | [] => pat.isEmpty
  | c :: t => List.isPrefixOf pat (c :: t) || containsSub pat t

/-- Containment of `pat` at a position preceded by a word boundary
(regex `\bpat`); `prev` is the character just before the scan point. -/
def containsSubWB (pat : Str) : Option Char → Str → Bool
  | prev, s =>
    ((match prev with
      | none => true
      | some c => !(wordCh c)) && List.isPrefixOf pat s) ||
    (match s with
     | [] => false
     | c :: t => containsSubWB pat (some c) t)

/-- Containment of `pat` at a position followed by a word boundary
(regex `pat\b`). -/
def containsSubWA (pat : Str) : Str → Bool
  | [] => pat.isEmpty
  | c :: t =>
    (List.isPrefixOf pat (c :: t) &&
      (match List.drop pat.length (c :: t) with
       | [] => true
       | d :: _ => !(wordCh d))) ||
    containsSubWA pat t

/-- Python `"/".rsplit` last component: text after the final slash. -/
def afterLastSlash (s : Str) : Str :=
  (s.reverse.takeWhile (· ≠ '/')).reverse

/-- Replace every occurrence of nonempty `pat` with `rep`, scanning left
to right without revisiting replaced text, as Python `str.replace`. -/
def replaceAllF (pat rep : Str) : Nat → Str → Str
  | 0, s => s
  | _ + 1, [] => []
  | f + 1, c :: t =>
    if List.isPrefixOf pat (c :: t) && !pat.isEmpty then
      rep ++ replaceAllF pat rep f (List.drop pat.length (c :: t))
    else c :: replaceAllF pat rep f t

/-- Python `str.replace` for a nonempty pattern. -/
def replaceAll (pat rep s : Str) : Str := replaceAllF pat rep s.length s

/-- Collapse each maximal whitespace run to a single space, the effect of
substituting one space for the regex class of whitespace runs; the flag
records whether the previous character was whitespace. -/
def collapseWsGo : Bool → Str → Str
  | _, [] => []
  | prevWs, c :: t =>
    if pyWs c then
      if prevWs then collapseWsGo true t else ' ' :: collapseWsGo true t
    else c :: collapseWsGo false t

/-- Whitespace-run collapapsing used by the guideline flush filter. -/
def collapseWs (s : Str) : Str := collapseWsGo false s

/-- Python `str.isupper` (ASCII fragment): at least one letter and no
lowercase letter. -/
def pyIsUpper (s : Str) : Bool :=
  s.any isUpperCh && !(s.any isLowerCh)

/-- Python `"sep".join`. -/
def joinSep (sep : Str) : List Str → Str
  | [] => []
  | [x] => x
  | x :: y :: t => x ++ sep ++ joinSep sep (y :: t)

/-- Python `str.splitlines` over the line breaks the agents encounter:
newline, carriage return, and the two-character sequence of both. -/
def splitLinesGo : Str → Str → List Str
  | cur, [] => if cur.isEmpty then [] else [cur.reverse]
  | cur, '\r' :: '\n' :: t => cur.reverse :: splitLinesGo [] t
  | cur, '\n' :: t => cur.reverse :: splitLinesGo [] t
  | cur, '\r' :: t => cur.reverse :: splitLinesGo [] t
  | cur, c :: t => splitLinesGo (c :: cur) t

/-- Split text into lines as Python `str.splitlines`. -/
def splitLines (s : Str) : List Str := splitLinesGo [] s

/-! ## JSON values and a model of Python `json.loads`

Values are kept at parse level: numbers carry their source lexeme, and
objects keep their members as an ordered association list (the agents
never produce duplicate keys, so dictionary collapsing is not modelled).
-/

/-- A parsed JSON value. -/
inductive Json where
  | null : Json
  | bool (b : Bool) : Json
  | num (lex : Str) : Json
  | str (s : Str) : Json
  | arr (items : List Json) : Json
  | obj (fields : List (Str × Json)) : Json

/-- Skip JSON whitespace. -/
def skipWs (s : Str) : Str := s.dropWhile jsonWsCh

/-- Value of an ASCII hex digit. -/
def hexVal (c : Char) : Option Nat :=
  if isDigitCh c then some (c.toNat - 48)
  else if 'a' ≤ c && c ≤ 'f' then some (c.toNat - 87)
  else if 'A' ≤ c && c ≤ 'F' then some (c.toNat - 55)
  else none

/-- Single-character JSON string escapes accepted by `json.loads`. -/
def escChar (c : Char) : Option Char :=
  if c = quoteCh then some quoteCh
  else if c = backslashCh then some backslashCh
  else if c = '/' then some '/'
  else if c = 'b' then some (Char.ofNat 8)
  else if c = 'f' then some (Char.ofNat 12)
  else if c = 'n' then some '\n'
  else if c = 'r' then some '\r'
  else if c = 't' then some '\t'
  else none

/-- Parse the body of a JSON string after the opening quote, in strict
mode: raw control characters are rejected, escapes are limited to the
JSON set, `\uXXXX` becomes the character with that code. -/
def parseStrBody : Str → Option (Str × Str)
  | [] => none
  | c :: t =>
    if c = quoteCh then some ([], t)
    else if c = backslashCh then
      match t with
      | [] => none
      | e :: t2 =>
        if e = 'u' then
          match t2 with
          | h1 :: h2 :: h3 :: h4 :: t3 =>
            match hexVal h1, hexVal h2, hexVal h3, hexVal h4 with
            | some a, some b, some c2, some d =>
              match parseStrBody t3 with
              | some (r, rest) =>
                some (Char.ofNat (((a * 16 + b) * 16 + c2) * 16 + d) :: r, rest)
              | none => none
            | _, _, _, _ => none
          | _ => none
        else
          match escChar e with
          | some d =>
            match parseStrBody t2 with
            | some (r, rest) => some (d :: r, rest)
            | none => none
          | none => none
    else if c.toNat < 32 then none
    else
      match parseStrBody t with
      | some (r, rest) => some (c :: r, rest)
      | none => none

/-- Exponent part of a JSON number: optional sign then digits. -/
def parseNumExp (lex : Str) (s : Str) : Option (Str × Str) :=
  match s with
  | e :: rest =>
    if e = 'e' || e = 'E' then
      let (sgn, r1) :=
        match rest with
        | c :: t => if c = '+' || c = '-' then ([c], t) else (([] : Str), rest)
        | [] => ([], rest)
      let ds := r1.takeWhile isDigitCh
      if ds.isEmpty then none
      else some (lex ++ e :: sgn ++ ds, r1.drop ds.length)
    else some (lex, s)
  | [] => some (lex, s)

/-- Fraction and exponent parts of a JSON number. -/
def parseNumFrac (lex : Str) (s : Str) : Option (Str × Str) :=
  match s with
  | c :: rest =>
    if c = '.' then
      let ds := rest.takeWhile isDigitCh
      if ds.isEmpty then none
      else parseNumExp (lex ++ c :: ds) (rest.drop ds.length)
    else parseNumExp lex s
  | [] => parseNumExp lex s

/-- Parse a JSON number lexeme: optional minus, integer part without
leading zeros, optional fraction and exponent. -/
def parseNum (s : Str) : Option (Str × Str) :=
  let (sgn, s1) :=
    match s with
    | c :: t => if c = '-' then ([c], t) else (([] : Str), s)
    | [] => ([], s)
  match s1 with
  | [] => none
  | c :: t =>
    if c = '0' then parseNumFrac (sgn ++ [c]) t
    else if isDigitCh c then
      let ds := t.takeWhile isDigitCh
      parseNumFrac (sgn ++ c :: ds) (t.drop ds.length)
    else none

mutual

/-- Parse one JSON value from the front of the input, with fuel bounding
the recursion; returns the value and the unconsumed remainder. -/
def parseVal : Nat → Str → Option (Json × Str)
  | 0, _ => none
  | f + 1, s0 =>
    let s := skipWs s0
    match s with
    | [] => none
    | c :: t =>
      if c = lbrace then
        match skipWs t with
        | d :: t3 =>
          if d = rbrace then some (Json.obj [], t3)
          else
            match parseFields f (skipWs t) with
            | some (l, r) => some (Json.obj l, r)
            | none => none
        | [] => none
      else if c = '[' then
        match skipWs t with
        | d :: t3 =>
          if d = ']' then some (Json.arr [], t3)
          else
            match parseElems f (skipWs t) with
            | some (l, r) => some (Json.arr l, r)
            | none => none
        | [] => none
      else if c = quoteCh then
        match parseStrBody t with
        | some (r, rest) => some (Json.str r, rest)
        | none => none
      else if List.isPrefixOf (toL "true") s then some (Json.bool true, s.drop 4)
      else if List.isPrefixOf (toL "false") s then some (Json.bool false, s.drop 5)
      else if List.isPrefixOf (toL "null") s then some (Json.null, s.drop 4)
      else if List.isPrefixOf (toL "NaN") s then some (Json.num (toL "NaN"), s.drop 3)
      else if List.isPrefixOf (toL "Infinity") s then some (Json.num (toL "Infinity"), s.drop 8)
      else if List.isPrefixOf (toL "-Infinity") s then some (Json.num (toL "-Infinity"), s.drop 9)
      else
        match parseNum s with
        | some (lex, rest) => some (Json.num lex, rest)
        | none => none

/-- Parse the members of a JSON object, positioned at the first key. -/
def parseFields : Nat → Str → Option (List (Str × Json) × Str)
  | 0, _ => none
  | f + 1, s =>
    match s with
    | [] => none
    | c :: t =>
      if c = quoteCh then
        match parseStrBody t with
        | some (k, r1) =>
          match skipWs r1 with
          | d :: r2 =>
            if d = ':' then
              match parseVal f r2 with
              | some (v, r3) =>
                match skipWs r3 with
                | e :: r4 =>
                  if e = ',' then
                    match parseFields f (skipWs r4) with
                    | some (rest, r5) => some ((k, v) :: rest, r5)
                    | none => none
                  else if e = rbrace then some ([(k, v)], r4)
                  else none
                | [] => none
              | none => none
            else none
          | [] => none
        | none => none
      else none

/-- Parse the elements of a JSON array, positioned at the first element. -/
def parseElems : Nat → Str → Option (List Json × Str)
  | 0, _ => none
  | f + 1, s =>
    match parseVal f s with
    | some (v, r1) =>
      match skipWs r1 with
      | e :: r2 =>
        if e = ',' then
          match parseElems f r2 with
          | some (l, r3) => some (v :: l, r3)
          | none => none
        else if e = ']' then some ([v], r2)
        else none
      | [] => none
    | none => none

end

/-- Model of Python `json.loads`: parse exactly one value with only
whitespace around it, or fail. -/
def jsonLoads (s : Str) : Option Json :=
  match parseVal (2 * s.length + 2) s with
  | some (v, r) => if skipWs r = [] then some v else none
  | none => none

/-! ## Text normalizer: thinking-block and code-fence removal

`soap_agent._strip_thinking_blocks` and
`patient_agent._strip_thinking_blocks` first delete every complete
delimited block matched by the pair pattern, then handle a lone
remaining opening delimiter.
-/

/-- If the input begins with a thinking delimiter (the literal opener,
one or more digits, the closing angle bracket), the length of that
delimiter. -/
def tagEnd (s : Str) : Option Nat :=
  if List.isPrefixOf (toL "<unused") s then
    let r := s.drop 7
    let ds := r.takeWhile isDigitCh
    if ds.isEmpty then none
    else
      match r.drop ds.length with
      | c :: _ => if c = '>' then some (7 + ds.length + 1) else none
      | [] => none
  else none

/-- First thinking delimiter in the text: start index and end index. -/
def findTagP : Str → Option (Nat × Nat)
  | [] => none
  | c :: t =>
    match tagEnd (c :: t) with
    | some n => some (0, n)
    | none =>
      match findTagP t with
      | some (i, e) => some (i + 1, e + 1)
      | none => none

/-- Remove every complete opener-to-next-opener span, scanning left to
right and continuing after each removed span, as the non-greedy paired
substitution does; fuel bounds the scan. -/
def removePairsF : Nat → Str → Str
  | 0, s => s
  | _ + 1, [] => []
  | f + 1, s =>
    match findTagP s with
    | none => s
    | some (i, e) =>
      match findTagP (s.drop e) with
      | none => s
      | some (_, e2) => s.take i ++ removePairsF f ((s.drop e).drop e2)

/-- Remove complete thinking blocks. -/
def removePairs (s : Str) : Str := removePairsF s.length s

/-- The unclosed-delimiter step shared by the SOAP and patient
normalizers: after pair removal, a lone opening delimiter causes a cut
to the first left brace at or after it, or truncation at the delimiter
when no brace follows. -/
def stripThinkingPS (s : Str) : Str :=
  let s1 := removePairs s
  match findTagP s1 with
  | none => s1
  | some (i, _) =>
    match findIdxFrom lbrace s1 i with
    | some b => s1.drop b
    | none => s1.take i

/-- Remove each triple-backtick fence, an optional `json` tag, and (when
`ws` is set, as in the patient and ddx agents) the following whitespace
run. -/
def stripFencesF (ws : Bool) : Nat → Str → Str
  | 0, s => s
  | _ + 1, [] => []
  | f + 1, c :: t =>
    if List.isPrefixOf [backtickCh, backtickCh, backtickCh] (c :: t) then
      let rest := (c :: t).drop 3
      let rest2 := if List.isPrefixOf (toL "json") rest then rest.drop 4 else rest
      stripFencesF ws f (if ws then rest2.dropWhile pyWs else rest2)
    else c :: stripFencesF ws f t

/-- Code-fence removal with trailing-whitespace absorption (patient and
ddx agents). -/
def stripFencesWs (s : Str) : Str := stripFencesF true s.length s

/-- Code-fence removal without whitespace absorption (SOAP agent). -/
def stripFencesPlain (s : Str) : Str := stripFencesF false s.length s

/-- The ddx agent's first substitution: delete each thinking delimiter
that is immediately followed by the word `thought` and a whitespace run. -/
def stripTagThoughtF : Nat → Str → Str
  | 0, s => s
  | _ + 1, [] => []
  | f + 1, c :: t =>
    match tagEnd (c :: t) with
    | some n =>
      let rest := (c :: t).drop n
      if List.isPrefixOf (toL "thought") rest then
        stripTagThoughtF f ((rest.drop 7).dropWhile pyWs)
      else c :: stripTagThoughtF f t
    | none => c :: stripTagThoughtF f t

/-- The ddx agent's second substitution: delete every remaining thinking
delimiter. -/
def stripTagsF : Nat → Str → Str
  | 0, s => s
  | _ + 1, [] => []
  | f + 1, c :: t =>
    match tagEnd (c :: t) with
    | some n => stripTagsF f ((c :: t).drop n)
    | none => c :: stripTagsF f t

/-- `ddx_agent._strip_thinking_blocks`. -/
def stripThinkingDdx (s : Str) : Str :=
  stripTagsF s.length (stripTagThoughtF s.length s)

/-- Normalization in `patient_agent.parse_response`: thinking-block
removal, fence removal with whitespace absorption, then strip, trailing
backtick removal, strip. -/
def normalizePatient (s : Str) : Str :=
  pyStrip (rstripChar backtickCh (pyStrip (stripFencesWs (stripThinkingPS s))))

/-- Normalization in `soap_agent.parse_response`. -/
def normalizeSoap (s : Str) : Str :=
  pyStrip (rstripChar backtickCh (pyStrip (stripFencesPlain (stripThinkingPS s))))

/-- Normalization in `ddx_agent.parse_response`. -/
def normalizeDdx (s : Str) : Str :=
  pyStrip (rstripChar backtickCh (pyStrip (stripFencesWs (stripThinkingDdx s))))

/-! ## Balanced-brace extraction, truncation repair, recovery cascades -/

/-- Balanced-brace scan beginning at an opening brace: walk forward
tracking depth, an in-string flag and escape state, returning the span
whose final character returns the depth to zero, or nothing when the end
of text is reached first.  `acc` accumulates the span in reverse. -/
def spanScan : Str → Nat → Bool → Bool → Str → Option Str
  | [], _, _, _, _ => none
  | c :: t, depth, inStr, esc, acc =>
    if esc then spanScan t depth inStr false (c :: acc)
    else if c = backslashCh && inStr then spanScan t depth inStr true (c :: acc)
    else if c = quoteCh then spanScan t depth (!inStr) false (c :: acc)
    else if inStr then spanScan t depth inStr false (c :: acc)
    else if c = lbrace then spanScan t (depth + 1) inStr false (c :: acc)
    else if c = rbrace then
      if depth = 1 then some ((c :: acc).reverse)
      else spanScan t (depth - 1) inStr false (c :: acc)
    else spanScan t depth inStr false (c :: acc)

/-- The span produced by the balanced-brace scan started at the head of
`s` (which is expected to be an opening brace). -/
def balancedSpan (s : Str) : Option Str := spanScan s 0 false false []

/-- `_extract_json_object` (ddx and patient agents): balanced span from
the first opening brace. -/
def extractJsonObject (s : Str) : Option Str :=
  match findIdxFrom lbrace s 0 with
  | none => none
  | some i => balancedSpan (s.drop i)

/-- First value of `f` over the list, in order. -/
def firstSome (f : Nat → Option Str) : List Nat → Option Str
  | [] => none
  | i :: t =>
    match f i with
    | some r => some r
    | none => firstSome f t

/-- `patient_agent._extract_json_from_last_brace`: starting from the
last opening-brace position and moving backward, return the first
candidate whose balanced scan closes. -/
def extractLastBrace (s : Str) : Option Str :=
  firstSome (fun i => balancedSpan (s.drop i)) (idxAll lbrace s).reverse

/-- The bracket/brace/string scan of `_repair_truncated_json`: net brace
depth, net bracket depth and the final in-string flag of the snippet. -/
def repairScan : Str → Int → Int → Bool → Bool → Int × Int × Bool
  | [], db, dk, inStr, _ => (db, dk, inStr)
  | c :: t, db, dk, inStr, esc =>
    if esc then repairScan t db dk inStr false
    else if c = backslashCh && inStr then repairScan t db dk inStr true
    else if c = quoteCh then repairScan t db dk (!inStr) false
    else if inStr then repairScan t db dk inStr false
    else if c = lbrace then repairScan t (db + 1) dk inStr false
    else if c = rbrace then repairScan t (db - 1) dk inStr false
    else if c = '[' then repairScan t db (dk + 1) inStr false
    else if c = ']' then repairScan t db (dk - 1) inStr false
    else repairScan t db dk inStr false

/-- `patient_agent._repair_truncated_json`: from the first opening brace
onward, when the net depths are not both zero, close an open string, the
open brackets, then the open braces. -/
def repairTruncated (s : Str) : Option Str :=
  match findIdxFrom lbrace s 0 with
  | none => none
  | some i =>
    let snippet := s.drop i
    let r := repairScan snippet 0 0 false false
    if r.1 = 0 && r.2.1 = 0 then none
    else
      some (snippet ++ (if r.2.2 then [quoteCh] else []) ++
        List.replicate r.2.1.toNat ']' ++ List.replicate r.1.toNat rbrace)

/-- The fallback record of `patient_agent.parse_response`. -/
def patientFallback : Json :=
  Json.obj
    [ (toL "summary",
       Json.str (toL "A summary could not be generated. Please speak directly with your doctor.")),
      (toL "key_points",
       Json.arr [Json.str (toL "Please consult your healthcare provider for further information.")]),
      (toL "next_steps_suggestion",
       Json.str (toL "Please discuss your results and next steps with your doctor.")) ]

/-- Strategy 4 of the patient cascade: truncation repair then parse,
else the fallback record. -/
def patientStep4 (text : Str) : Json :=
  match repairTruncated text with
  | some c =>
    match jsonLoads c with
    | some v => v
    | none => patientFallback
  | none => patientFallback

/-- Strategy 3 of the patient cascade: first-brace balanced span. -/
def patientStep3 (text : Str) : Json :=
  match extractJsonObject text with
  | some c =>
    match jsonLoads c with
    | some v => v
    | none => patientStep4 text
  | none => patientStep4 text

/-- Strategy 2 of the patient cascade: last-brace balanced span. -/
def patientStep2 (text : Str) : Json :=
  match extractLastBrace text with
  | some c =>
    match jsonLoads c with
    | some v => v
    | none => patientStep3 text
  | none => patientStep3 text

/-- `patient_agent.parse_response`: normalization followed by the
ordered cascade of direct parse, last-brace scan, first-brace scan,
truncation repair, and the fallback record. -/
def patientParse (raw : Str) : Json :=
  let text := normalizePatient raw
  match jsonLoads text with
  | some v => v
  | none => patientStep2 text

/-- The fallback record of `soap_agent.parse_response`. -/
def soapFallback : Json :=
  Json.obj
    [ (toL "subjective", Json.str (toL "Parse error — review raw output.")),
      (toL "objective", Json.str (toL "Parse error — review raw output.")),
      (toL "assessment", Json.str (toL "Parse error — review raw output.")),
      (toL "plan_suggestions", Json.str (toL "Parse error — review raw output.")) ]

/-- The greedy brace-to-brace regex search of `soap_agent.parse_response`:
span from the first opening brace to the last closing brace at least two
positions later. -/
def soapExtract (s : Str) : Option Str :=
  match (idxAll lbrace s).head?, (idxAll rbrace s).getLast? with
  | some i, some j => if i + 2 ≤ j then some ((s.drop i).take (j + 1 - i)) else none
  | _, _ => none

/-- `soap_agent.parse_response`: direct parse, then the greedy regex
span, then the fallback record. -/
def soapParse (raw : Str) : Json :=
  let text := normalizeSoap raw
  match jsonLoads text with
  | some v => v
  | none =>
    match soapExtract text with
    | some c =>
      match jsonLoads c with
      | some v => v
      | none => soapFallback
    | none => soapFallback

/-- The fallback record of `ddx_agent.parse_response`. -/
def ddxFallback : Json :=
  Json.obj
    [ (toL "diagnoses", Json.arr []),
      (toL "reasoning_summary", Json.str (toL "Parsing failed — review raw output.")) ]

/-- `ddx_agent.parse_response`: direct parse, then the first-brace
balanced span, then the fallback record. -/
def ddxParse (raw : Str) : Json :=
  let text := normalizeDdx raw
  match jsonLoads text with
  | some v => v
  | none =>
    match extractJsonObject text with
    | some c =>
      match jsonLoads c with
      | some v => v
      | none => ddxFallback
    | none => ddxFallback

/-! ## Field coercion and record assembly

`run` in each agent reads fields out of the parsed value with `.get` and
coerces them.  A Python `dict` lookup is modelled by association-list
lookup (the agents never produce duplicate keys).  An `Option` result on
an assembly path models the possibility of an uncaught exception: `none`
is a raised `AttributeError`/`TypeError` when the parse result is not an
object. -/

/-- Python truthiness of a lexeme-level number: zero mantissa digits. -/
def lexIsZero (n : Str) : Bool :=
  let n1 := match n with | c :: t => if c = '-' then t else n | [] => n
  let mant := n1.takeWhile (fun c => isDigitCh c || c = '.')
  (!mant.isEmpty) && mant.all (fun c => c = '0' || c = '.')

/-- Python truthiness of a parsed JSON value. -/
def pyTruthy : Json → Bool
  | Json.null => false
  | Json.bool b => b
  | Json.num n => !(lexIsZero n)
  | Json.str s => !s.isEmpty
  | Json.arr l => !l.isEmpty
  | Json.obj l => !l.isEmpty

/-- Python `repr` of a parsed JSON value, to the depth given by the
fuel; string quoting is modelled without escape refinement, which the
agents never exercise. -/
def pyReprF : Nat → Json → Str
  | 0, _ => []
  | _ + 1, Json.null => toL "None"
  | _ + 1, Json.bool true => toL "True"
  | _ + 1, Json.bool false => toL "False"
  | _ + 1, Json.num n => n
  | _ + 1, Json.str s => Char.ofNat 39 :: s ++ [Char.ofNat 39]
  | f + 1, Json.arr l =>
      '[' :: joinSep (toL ", ") (l.map (pyReprF f)) ++ [']']
  | f + 1, Json.obj l =>
      lbrace :: joinSep (toL ", ")
        (l.map (fun p => pyReprF f (Json.str p.1) ++ toL ": " ++ pyReprF f p.2)) ++ [rbrace]

/-- Python `str()` of a parsed JSON value: strings verbatim, scalars by
their Python renderings, containers by `repr` (the agents' payloads
never nest beyond the fuel used here). -/
def pyStr : Json → Str
  | Json.str s => s
  | Json.num n => n
  | Json.bool true => toL "True"
  | Json.bool false => toL "False"
  | Json.null => toL "None"
  | j => pyReprF 1000 j

/-- Association-list lookup with default, modelling `dict.get`. -/
def dictGet : List (Str × Json) → Str → Json → Json
  | [], _, d => d
  | (k2, v) :: t, k, d => if k2 = k then v else dictGet t k d

/-- Membership of a key, modelling the `in` operator on a dict. -/
def dictHas (kvs : List (Str × Json)) (k : Str) : Bool :=
  kvs.any (fun p => decide (p.1 = k))

/-- `soap_agent._to_str`: a list is joined with newlines after dropping
falsy items and stripping each; a string passes through; `None` becomes
the documented default; anything else is rendered with `str`. -/
def soapToStr : Json → Str
  | Json.arr items =>
      joinSep (toL "\n") ((items.filter pyTruthy).map (fun it => pyStrip (pyStr it)))
  | Json.str s => s
  | Json.null => toL "Not documented."
  | j => pyStr j

/-- `ddx_agent.run._to_str`: a list is joined with semicolon-and-space;
a falsy non-list becomes the empty string; anything else is rendered
with `str`. -/
def ddxToStr : Json → Str
  | Json.arr items => joinSep (toL "; ") (items.map pyStr)
  | j => if pyTruthy j then pyStr j else []

/-- The record `patient_agent.run` constructs from the parsed value. -/
structure PatRecord where
  summary : Json
  key_points : List Json
  next_steps_suggestion : Json

/-- `patient_agent.run` after generation: field extraction from the
parse result.  A non-object parse result makes the attribute accesses
raise, modelled as `none`. -/
def patientAssemble (raw : Str) : Option PatRecord :=
  match patientParse raw with
  | Json.obj kvs =>
    let kp := dictGet kvs (toL "key_points") (Json.arr [])
    let kpl : List Json :=
      match kp with
      | Json.arr l => l
      | j => [Json.str (pyStr j)]
    some
      { summary := dictGet kvs (toL "summary") (Json.str (toL "Summary unavailable.")),
        key_points := kpl.take 5,
        next_steps_suggestion :=
          dictGet kvs (toL "next_steps_suggestion")
            (Json.str (toL "Please speak with your doctor about your results and next steps.")) }
  | _ => none

/-- The record `soap_agent.run` constructs from the parsed value. -/
structure SoapRecord where
  subjective : Json
  objective : Json
  assessment : Json
  plan_suggestions : Json

/-- `soap_agent.run` after generation: the refusal branch on an `error`
key, otherwise coercion of the four sections.  A non-object parse result
makes the membership test or attribute access raise, modelled as
`none`. -/
def soapAssemble (raw : Str) : Option SoapRecord :=
  match soapParse raw with
  | Json.obj kvs =>
    if dictHas kvs (toL "error") then
      some
        { subjective := Json.str (toL "[Refused]"),
          objective := Json.str (toL "[Refused]"),
          assessment := Json.str (toL "[Refused]"),
          plan_suggestions := dictGet kvs (toL "error") Json.null }
    else
      some
        { subjective :=
            Json.str (soapToStr (dictGet kvs (toL "subjective") (Json.str (toL "Not documented.")))),
          objective :=
            Json.str (soapToStr (dictGet kvs (toL "objective") (Json.str (toL "Not documented.")))),
          assessment :=
            Json.str (soapToStr (dictGet kvs (toL "assessment") (Json.str (toL "Not documented.")))),
          plan_suggestions :=
            Json.str (soapToStr (dictGet kvs (toL "plan_suggestions") (Json.str (toL "Not documented.")))) }
  | _ => none

/-- One entry of the differential list as `ddx_agent.run` builds it. -/
structure DiagEntry where
  rank : Json
  condition : Json
  likelihood : Json
  supporting_features : Str
  against_features : Str

/-- The record `ddx_agent.run` constructs from the parsed value. -/
structure DdxRecord where
  diagnoses : List DiagEntry
  reasoning_summary : Json

/-- Build the capped entry list; a non-object item makes the attribute
access raise, modelled as `none`.  The index supplies the rank default. -/
def ddxEntriesOf : Nat → List Json → Option (List DiagEntry)
  | _, [] => some []
  | i, item :: t =>
    match item with
    | Json.obj kvs =>
      match ddxEntriesOf (i + 1) t with
      | some rest =>
        some
          ({ rank := dictGet kvs (toL "rank") (Json.num (toL (Nat.repr (i + 1)))),
             condition := dictGet kvs (toL "condition") (Json.str (toL "Unknown")),
             likelihood := dictGet kvs (toL "likelihood") (Json.str (toL "Low")),
             supporting_features := ddxToStr (dictGet kvs (toL "supporting_features") (Json.str [])),
             against_features := ddxToStr (dictGet kvs (toL "against_features") (Json.str [])) } :: rest)
      | none => none
    | _ => none

/-- `ddx_agent.run` after generation.  A non-object parse result makes
the attribute access raise, modelled as `none`; a string-valued
`diagnoses` field slices to its characters, which raise unless empty. -/
def ddxAssemble (raw : Str) : Option DdxRecord :=
  match ddxParse raw with
  | Json.obj kvs =>
    let summary := dictGet kvs (toL "reasoning_summary") (Json.str (toL "Unavailable."))
    match dictGet kvs (toL "diagnoses") (Json.arr []) with
    | Json.arr l =>
      match ddxEntriesOf 0 (l.take 5) with
      | some es => some { diagnoses := es, reasoning_summary := summary }
      | none => none
    | Json.str s => if s.isEmpty then some { diagnoses := [], reasoning_summary := summary } else none
    | _ => none
  | _ => none

/-! ## Guideline agent: passage classifier and aggregator

`guideline_agent._parse_chunk` is a line-oriented state machine; its
regular-expression tables are embedded as executable containment checks
over lower-cased text (the searches are case-insensitive). -/

/-- A retrieved chunk; an empty `source` models a missing or empty
source field. -/
structure Chunk where
  text : Str
  source : Str

/-- The two-entry filename-to-citation table `_SOURCE_LABELS`. -/
def sourceLabelTable : List (Str × Str) :=
  [ (toL "sample_respiratory_guidelines.txt",
     toL "ATS/ERS/JRS/ALAT IPF & Respiratory Guidelines (2022)"),
    (toL "connective_tissue_ild_guidelines.txt",
     toL "ATS/ERS CTD-ILD · BTS ILD Guidelines (2022–2024)") ]

/-- Association lookup in the label table. -/
def tableGet : List (Str × Str) → Str → Option Str
  | [], _ => none
  | (k, v) :: t, x => if k = x then some v else tableGet t x

/-- `guideline_agent._label`: strip any path prefix, look the base name
up in the citation table, else prettify the filename. -/
def labelOf (filename : Str) : Str :=
  let base := afterLastSlash filename
  match tableGet sourceLabelTable base with
  | some v => v
  | none => replaceAll (toL ".pdf") [] (replaceAll (toL ".txt") [] (replaceAll (toL "_") (toL " ") base))

/-- The Workup row of `_HEADER_CATEGORY`, over lower-cased text. -/
def patWorkup (low : Str) : Bool :=
  containsSub (toL "workup") low || containsSub (toL "investigation") low ||
  containsSub (toL "serolog") low || containsSub (toL "screen") low ||
  containsSub (toL "biopsy") low || containsSub (toL "broncho") low ||
  containsSub (toL "echocard") low

/-- The Management row of `_HEADER_CATEGORY`. -/
def patManagement (low : Str) : Bool :=
  containsSub (toL "management") low || containsSub (toL "treatment") low ||
  containsSub (toL "therapy") low || containsSub (toL "therapeut") low ||
  containsSub (toL "antifibrotic") low || containsSub (toL "anti-fibrotic") low ||
  containsSub (toL "pharmacolog") low || containsSub (toL "prescri") low

/-- The Monitoring row of `_HEADER_CATEGORY`. -/
def patMonitoring (low : Str) : Bool :=
  containsSub (toL "monitor") low || containsSub (toL "surveillance") low ||
  containsSub (toL "serial") low || containsSub (toL "repeat pft") low ||
  containsSub (toL "dlco every") low || containsSub (toL "fvc every") low

/-- The follow-up branch `follow.?up`: `follow` then `up` with at most
one interposed character other than a newline. -/
def containsFollowUp : Str → Bool
  | [] => false
  | c :: t =>
    (List.isPrefixOf (toL "follow") (c :: t) &&
      (List.isPrefixOf (toL "up") ((c :: t).drop 6) ||
        (match (c :: t).drop 6 with
         | d :: r => d ≠ '\n' && List.isPrefixOf (toL "up") r
         | [] => false))) ||
    containsFollowUp t

/-- The Follow-up row of `_HEADER_CATEGORY`. -/
def patFollowUp (low : Str) : Bool :=
  containsFollowUp low || containsSub (toL "referral") low ||
  containsSub (toL "refer all") low || containsSub (toL "review appointment") low

/-- `guideline_agent._category_from_context`: first matching row wins,
else the fallback category. -/
def categoryFrom (line : Str) (fallback : Str) : Str :=
  let low := lowerStr line
  if patWorkup low then toL "Workup"
  else if patManagement low then toL "Management"
  else if patMonitoring low then toL "Monitoring"
  else if patFollowUp low then toL "Follow-up"
  else fallback

/-- Whether any category row matches the line. -/
def catHit (line : Str) : Bool :=
  let low := lowerStr line
  patWorkup low || patManagement low || patMonitoring low || patFollowUp low

/-- `_SKIP_SECTION` over lower-cased text: word-bounded
`diagnosi`/`diagnose`, `diagnostic criteria`, `definition` ending at a
word boundary, or `key hrct features`. -/
def skipMatch (low : Str) : Bool :=
  containsSubWB (toL "diagnosi") none low || containsSubWB (toL "diagnose") none low ||
  containsSub (toL "diagnostic criteria") low || containsSubWA (toL "definition") low ||
  containsSub (toL "key hrct features") low

/-- `_CONFIDENCE_DIRECT` over lower-cased text. -/
def confDirect (low : Str) : Bool :=
  containsSubWB (toL "recommend") none low || containsSub (toL "indicated") low ||
  containsSubWA (toL "should") low || containsSub (toL "required") low ||
  containsSubWA (toL "must") low || containsSub (toL "standard of care") low

/-- `_CONFIDENCE_INFERRED` over lower-cased text. -/
def confInferred (low : Str) : Bool :=
  containsSubWB (toL "suggest") none low || containsSub (toL "consider") low ||
  containsSubWA (toL "may") low || containsSub (toL "conditional") low ||
  containsSub (toL "optional") low || containsSubWA (toL "could") low

/-- `guideline_agent._confidence`: Direct keywords first, then Inferred,
else Low-evidence. -/
def confidenceOf (text : Str) : Str :=
  if confDirect (lowerStr text) then toL "Direct"
  else if confInferred (lowerStr text) then toL "Inferred"
  else toL "Low-evidence"

/-- `_INCOMPLETE`: the flushed text ends in a lowercase letter or comma. -/
def incompleteEnd (s : Str) : Bool :=
  match s.getLast? with
  | some c => isLowerCh c || c = ','
  | none => false

/-- The numbered-section header pattern after its leading digit: a run
of dots and digits, then a space and an uppercase letter. -/
def numHdrRest : Str → Bool
  | [] => false
  | c :: t =>
    if isDigitCh c || c = '.' then numHdrRest t
    else
      c = ' ' &&
        (match t with
         | d :: _ => isUpperCh d
         | [] => false)

/-- The numbered-section header pattern. -/
def matchNumHeader : Str → Bool
  | c :: t => isDigitCh c && numHdrRest t
  | [] => false

/-- Skip whitespace after the hash run, then require one more
character. -/
def hashAfterWs : Str → Bool
  | [] => false
  | c :: t => if pyWs c then hashAfterWs t else true

/-- The markdown-heading pattern after its first hash. -/
def hashAfterHash : Str → Bool
  | [] => false
  | c :: t => if c = '#' then hashAfterHash t else pyWs c && hashAfterWs t

/-- The markdown-heading header pattern. -/
def matchHashHeader : Str → Bool
  | c :: t => c = '#' && hashAfterHash t
  | [] => false

/-- Header detection on a stripped line: numbered section, markdown
heading, or an all-capitals line of bounded length. -/
def isHeader (stripped : Str) : Bool :=
  matchNumHeader stripped || matchHashHeader stripped ||
  (pyIsUpper stripped && decide (4 < stripped.length) && decide (stripped.length < 80))

/-- One emitted candidate of `_parse_chunk`. -/
structure GEntry where
  category : Str
  recommendation : Str
  source : Str
  confidence : Str
deriving DecidableEq

/-- The transient per-chunk classifier state. -/
structure GState where
  category : Str
  skip : Bool
  pending : Option Str
deriving DecidableEq

/-- Truthiness of the pending bullet, as Python applies to the
`pending_bullet` variable. -/
def pendTruthy : Option Str → Bool
  | some (_ :: _) => true
  | _ => false

/-- `_parse_chunk._flush`: drop a falsy pending value, collapse and strip
whitespace, then discard short, truncated-looking, or skip-section
bullets; a surviving bullet becomes a candidate tagged with the category
and skip state at flush time. -/
def flushEntry (lbl : Str) (st : GState) : Option GEntry :=
  match st.pending with
  | none => none
  | some b =>
    if b.isEmpty then none
    else
      let b2 := pyStrip (collapseWs b)
      if b2.length < 25 then none
      else if incompleteEnd b2 then none
      else if st.skip then none
      else some { category := st.category, recommendation := b2, source := lbl, confidence := confidenceOf b2 }

/-- One line of the `_parse_chunk` loop: blank lines are skipped;
headers flush, reset the pending bullet, set the skip flag from the
excluded-topic pattern and reclassify when not skipping; bullet starts
flush and begin a pending bullet; indented continuations extend a truthy
pending bullet; other lines reclassify only when no truthy bullet is
pending. -/
def stepLine (lbl : Str) (st : GState) (line : Str) : GState × List GEntry :=
  let stripped := pyStrip line
  if stripped.isEmpty then (st, [])
  else if isHeader stripped then
    let es := (flushEntry lbl st).toList
    let skip2 := skipMatch (lowerStr stripped)
    let cat2 := if skip2 then st.category else categoryFrom stripped st.category
    ({ category := cat2, skip := skip2, pending := none }, es)
  else if List.isPrefixOf ['-', ' '] stripped then
    let es := (flushEntry lbl st).toList
    ({ category := st.category, skip := st.skip, pending := some (pyStrip (stripped.drop 2)) }, es)
  else
    match st.pending with
    | some (c :: r) =>
      if List.isPrefixOf [' ', ' '] line then
        ({ category := st.category, skip := st.skip, pending := some ((c :: r) ++ ' ' :: stripped) }, [])
      else (st, [])
    | _ => ({ category := categoryFrom stripped st.category, skip := st.skip, pending := st.pending }, [])

/-- Run the classifier over a list of lines, accumulating candidates. -/
def runLines (lbl : Str) : GState → List Str → GState × List GEntry
  | st, [] => (st, [])
  | st, l :: ls =>
    let p := stepLine lbl st l
    let q := runLines lbl p.1 ls
    (q.1, p.2 ++ q.2)

/-- The initial classifier state. -/
def initGState : GState := { category := toL "Management", skip := false, pending := none }

/-- `guideline_agent._parse_chunk`: run the state machine over the split
lines and flush the final pending bullet. -/
def parseChunk (c : Chunk) : List GEntry :=
  let lbl := labelOf c.source
  let r := runLines lbl initGState (splitLines c.text)
  r.2 ++ (flushEntry lbl r.1).toList

/-- The deduplication key: the case-folded first eighty characters of
the recommendation text. -/
def entryKey (e : GEntry) : Str := lowerStr (e.recommendation.take 80)

/-- The first-seen deduplication loop of `guideline_agent.run`, with the
set of seen keys as a list. -/
def dedupGo : List Str → List GEntry → List GEntry
  | _, [] => []
  | seen, e :: t =>
    if entryKey e ∈ seen then dedupGo seen t
    else e :: dedupGo (entryKey e :: seen) t

/-- Keep the first candidate per normalized key, in order. -/
def dedupEntries (l : List GEntry) : List GEntry := dedupGo [] l

/-- Keep-first-per-key written as the specification states it: the head
survives and later candidates with its key are dropped before the rest
is processed. -/
def specKeepFirst : List GEntry → List GEntry
  | [] => []
  | e :: t => e :: specKeepFirst (t.filter (fun x => entryKey x ≠ entryKey e))
termination_by l => l.length
decreasing_by
  exact Nat.lt_succ_of_le (List.length_filter_le _ _)

/-- First-seen-order deduplication of label strings; it models the
Python set of labels in `guideline_agent.run`, whose iteration order the
language does not fix, so only membership and distinctness of this list
are faithful. -/
def dedupStrGo : List Str → List Str → List Str
  | _, [] => []
  | seen, s :: t =>
    if s ∈ seen then dedupStrGo seen t
    else s :: dedupStrGo (s :: seen) t

/-- The distinct source labels of the retrieved chunks that carry a
truthy source field. -/
def runSources (chunks : List Chunk) : List Str :=
  dedupStrGo []
    (chunks.filterMap (fun c => if c.source.isEmpty then none else some (labelOf c.source)))

/-- The record `guideline_agent.run` returns. -/
structure GRec where
  recommendations : List GEntry
  retrieved_sources : List Str
  raw : Str
deriving DecidableEq

/-- `guideline_agent.run` from the retrieval result onward: empty
retrieval short-circuits; otherwise each chunk is parsed, the candidates
are deduplicated keeping first occurrences, and the distinct source
labels accompany them. -/
def guidelineRun (chunks : List Chunk) : GRec :=
  let sources := runSources chunks
  if chunks.isEmpty then { recommendations := [], retrieved_sources := [], raw := [] }
  else
    let uniq := dedupEntries (chunks.flatMap parseChunk)
    { recommendations := uniq,
      retrieved_sources := sources,
      raw := joinSep ['\n'] (uniq.map (·.recommendation)) }

/-! ## Observers and claim-statement predicates -/

/-- A string-valued field of an object, empty for anything else; used to
tell concrete parse results apart. -/
def strField (j : Json) (k : Str) : Str :=
  match j with
  | Json.obj kvs =>
    match dictGet kvs k Json.null with
    | Json.str s => s
    | _ => []
  | _ => []

/-- First parse success over candidate positions. -/
def firstSomeJson (f : Nat → Option Json) : List Nat → Option Json
  | [] => none
  | i :: t =>
    match f i with
    | some r => some r
    | none => firstSomeJson f t

/-- The last-top-level-object strategy as the specification words it:
balanced-span candidates from the last opening-brace position backward
are each parsed, until one parses successfully.  Stated for comparison
with `extractLastBrace`, which stops at the first balanced span. -/
def specLastScan (s : Str) : Option Json :=
  firstSomeJson
    (fun i =>
      match balancedSpan (s.drop i) with
      | some c => jsonLoads c
      | none => none)
    (idxAll lbrace s).reverse

/-- A line the classifier treats as a section header: nonblank after
stripping vs the header patterns. -/
def headerLine (l : Str) : Prop :=
  (pyStrip l).isEmpty = false ∧ isHeader (pyStrip l) = true

/-- A line the classifier treats as a bullet start. -/
def bulletLine (l : Str) : Prop :=
  (pyStrip l).isEmpty = false ∧ isHeader (pyStrip l) = false ∧
    List.isPrefixOf ['-', ' '] (pyStrip l) = true

/-- Whether the classifier processes this line in the plain-paragraph
branch, the only branch besides headers that reclassifies: the line is
nonblank, not a header, not a bullet start, and no truthy bullet is
pending (a truthy pending routes the line to the continuation or
ignored branches instead). -/
def isParagraphStep (st : GState) (l : Str) : Bool :=
  let stripped := pyStrip l
  !stripped.isEmpty && !(isHeader stripped) &&
    !(List.isPrefixOf ['-', ' '] stripped) && !(pendTruthy st.pending)

/-- The claim's "no category-keyword paragraph" condition, evaluated
along the classifier's own trace: at every line that the machine
processes as a plain paragraph, no category keyword matches. -/
def noKeywordParagraphB (lbl : Str) : GState → List Str → Bool
  | _, [] => true
  | st, l :: ls =>
    (!(isParagraphStep st l) || !(catHit (pyStrip l))) &&
      noKeywordParagraphB lbl (stepLine lbl st l).1 ls

/-- The claim's "non-surviving bullet" condition for a pending bullet:
follow the remaining lines to the first flush point (header, bullet
start, or end of passage), extending the pending exactly as the
classifier does, and require that flush to emit nothing. -/
def pendingDiesB (lbl : Str) : GState → List Str → Bool
  | st, [] => (flushEntry lbl st).isNone
  | st, l :: ls =>
    let stripped := pyStrip l
    if stripped.isEmpty then pendingDiesB lbl st ls
    else if isHeader stripped then (flushEntry lbl st).isNone
    else if List.isPrefixOf ['-', ' '] stripped then (flushEntry lbl st).isNone
    else pendingDiesB lbl (stepLine lbl st l).1 ls

instance (l : Str) : Decidable (headerLine l) := by
  unfold headerLine
  infer_instance

instance (l : Str) : Decidable (bulletLine l) := by
  unfold bulletLine
  infer_instance

/-! ## Theorems -/

/-- C1: each extraction entry point is claimed total and exception-free
on every raw string, including valid-JSON-but-non-object text.  At the
bare number `3` every parse path returns the non-object value `3`
unchanged, and each `run` assembly then performs a dictionary operation
on it, which raises; the assembly paths evaluate to `none` (the modelled
exception) on this input. -/
theorem c1_bare_number_raises :
    patientParse (toL "3") = Json.num (toL "3") ∧
    patientAssemble (toL "3") = none ∧
    soapAssemble (toL "3") = none ∧
    ddxAssemble (toL "3") = none := by
  refine ⟨rfl, rfl, rfl, rfl⟩

/-- C2: truncation repair on the documented example closes the open
string and object, the result parses with the key recovered, and a
balanced text is left alone. -/
theorem c2_truncation_repair :
    repairTruncated (toL "\x7b\"summary\": \"see your doctor") =
      some (toL "\x7b\"summary\": \"see your doctor\"\x7d") ∧
    jsonLoads (toL "\x7b\"summary\": \"see your doctor\"\x7d") =
      some (Json.obj [(toL "summary", Json.str (toL "see your doctor"))]) ∧
    repairTruncated (toL "\x7b\"a\": 1\x7d") = none := by
  refine ⟨rfl, rfl, rfl⟩

/-- C3 counterexample: the SOAP coercion joins a list of strings with a
newline, not with semicolon-and-space, so not every extraction path uses
the claimed separator. -/
theorem c3_soap_joins_newline :
    soapToStr (Json.arr [Json.str (toL "a"), Json.str (toL "b")]) = toL "a\nb" ∧
    (toL "a\nb" : Str) ≠ toL "a; b" := by
  exact ⟨rfl, by decide⟩

/-- C3 amended: the ddx path joins a list of strings with
semicolon-and-space; the SOAP path joins with a newline after stripping
each element (and drops falsy elements); missing or null values become
the documented defaults. -/
theorem c3_list_coercion :
    (∀ l : List Str, ddxToStr (Json.arr (l.map Json.str)) = joinSep (toL "; ") l) ∧
    (∀ l : List Str, (∀ x ∈ l, x ≠ []) →
      soapToStr (Json.arr (l.map Json.str)) = joinSep (toL "\n") (l.map pyStrip)) ∧
    soapToStr Json.null = toL "Not documented." ∧
    ddxToStr Json.null = [] := by
  refine ⟨fun l => ?_, fun l h => ?_, rfl, rfl⟩
  · simp [ddxToStr, List.map_map, Function.comp_def, pyStr]
  · have hf : (l.map Json.str).filter pyTruthy = l.map Json.str := by
      refine List.filter_eq_self.mpr ?_
      intro a ha
      rcases List.mem_map.mp ha with ⟨x, hx, rfl⟩
      have : x ≠ [] := h x hx
      simp [pyTruthy, List.isEmpty_iff, this]
    simp [soapToStr, hf, List.map_map, Function.comp_def, pyStr]

/-- Witness for C3 amended at a concrete two-element list. -/
theorem c3_list_coercion_witness :
    soapToStr (Json.arr [Json.str (toL "alpha"), Json.str (toL "beta")]) =
      joinSep (toL "\n") ([toL "alpha", toL "beta"].map pyStrip) :=
  c3_list_coercion.2.1 [toL "alpha", toL "beta"] (by decide)

/-- C4 counterexample: on an unclosed thinking delimiter followed by a
brace, the normalizer discards the text before the delimiter as well,
instead of preserving it as claimed. -/
theorem c4_prefix_discarded :
    stripThinkingPS (toL "a<unused1>b\x7bc") = toL "\x7bc" ∧
    (toL "\x7bc" : Str) ≠ toL "a\x7bc" := by
  exact ⟨rfl, by decide⟩

/-- C4 amended: with no complete block and an unclosed delimiter at
position `i`, the normalizer keeps only the text from the first brace at
or after the delimiter (discarding everything before that brace), and
when no brace follows it keeps only the text before the delimiter. -/
theorem c4_unclosed_tag (s : Str) (i e : Nat)
    (h1 : removePairs s = s) (h2 : findTagP s = some (i, e)) :
    (∃ b, findIdxFrom lbrace s i = some b ∧ stripThinkingPS s = s.drop b) ∨
    (findIdxFrom lbrace s i = none ∧ stripThinkingPS s = s.take i) := by
  have hs : stripThinkingPS s =
      (match findIdxFrom lbrace s i with
       | some b => s.drop b
       | none => s.take i) := by
    unfold stripThinkingPS
    simp only [h1, h2]
  cases hb : findIdxFrom lbrace s i with
  | some b =>
    left
    simp only [hb] at hs
    exact ⟨b, rfl, hs⟩
  | none =>
    right
    simp only [hb] at hs
    exact ⟨rfl, hs⟩

/-- Witness for C4 amended at the concrete counterexample input. -/
theorem c4_unclosed_tag_witness :
    (∃ b, findIdxFrom lbrace (toL "a<unused1>b\x7bc") 1 = some b ∧
      stripThinkingPS (toL "a<unused1>b\x7bc") = (toL "a<unused1>b\x7bc").drop b) ∨
    (findIdxFrom lbrace (toL "a<unused1>b\x7bc") 1 = none ∧
      stripThinkingPS (toL "a<unused1>b\x7bc") = (toL "a<unused1>b\x7bc").take 1) :=
  c4_unclosed_tag (toL "a<unused1>b\x7bc") 1 10 (by decide) (by decide)

/-- C5 counterexample: with three top-level spans of which only the
middle parses, the last-brace strategy returns the last balanced span
and does not retry earlier positions after its parse fails; the cascade
ends in the fallback record, while the claimed try-until-parse scan
would have produced the middle object. -/
theorem c5_no_backward_retry :
    patientParse (toL "\x7bx\x7d \x7b\"a\":1\x7d \x7by\x7d") = patientFallback ∧
    extractLastBrace (toL "\x7bx\x7d \x7b\"a\":1\x7d \x7by\x7d") = some (toL "\x7by\x7d") ∧
    jsonLoads (toL "\x7by\x7d") = none ∧
    specLastScan (toL "\x7bx\x7d \x7b\"a\":1\x7d \x7by\x7d") =
      some (Json.obj [(toL "a", Json.num (toL "1"))]) ∧
    strField patientFallback (toL "summary") =
      toL "A summary could not be generated. Please speak directly with your doctor." ∧
    strField (Json.obj [(toL "a", Json.num (toL "1"))]) (toL "summary") = [] ∧
    (toL "A summary could not be generated. Please speak directly with your doctor." : Str) ≠ [] := by
  refine ⟨rfl, rfl, rfl, rfl, rfl, rfl, by decide⟩

/-- C5 amended: the cascade is ordered with first success winning, but
within the last-brace strategy only the first balanced candidate
scanning backward is parsed, once; if that parse fails the cascade moves
on to the first-object scan, truncation repair, and the fallback. -/
theorem c5_cascade_order :
    (∀ s v, jsonLoads (normalizePatient s) = some v → patientParse s = v) ∧
    (∀ s c v, jsonLoads (normalizePatient s) = none →
      extractLastBrace (normalizePatient s) = some c → jsonLoads c = some v →
      patientParse s = v) ∧
    (∀ s v, jsonLoads (normalizePatient s) = none →
      (extractLastBrace (normalizePatient s)).bind jsonLoads = none →
      (extractJsonObject (normalizePatient s)).bind jsonLoads = some v →
      patientParse s = v) ∧
    (∀ s, jsonLoads (normalizePatient s) = none →
      (extractLastBrace (normalizePatient s)).bind jsonLoads = none →
      (extractJsonObject (normalizePatient s)).bind jsonLoads = none →
      (repairTruncated (normalizePatient s)).bind jsonLoads = none →
      patientParse s = patientFallback) := by
  refine ⟨fun s v h1 => ?_, fun s c v h1 h2 h3 => ?_, fun s v h1 h2 h3 => ?_,
    fun s h1 h2 h3 h4 => ?_⟩
  · simp only [patientParse, h1]
  · simp only [patientParse, h1, patientStep2, h2, h3]
  · simp only [patientParse, h1, patientStep2]
    cases hx : extractLastBrace (normalizePatient s) with
    | some c =>
      rw [hx] at h2
      simp only [Option.some_bind] at h2
      simp only [h2, patientStep3]
      cases hy : extractJsonObject (normalizePatient s) with
      | some c2 =>
        rw [hy] at h3
        simp only [Option.some_bind] at h3
        simp only [h3]
      | none =>
        rw [hy] at h3
        simp at h3
    | none =>
      simp only [patientStep3]
      cases hy : extractJsonObject (normalizePatient s) with
      | some c2 =>
        rw [hy] at h3
        simp only [Option.some_bind] at h3
        simp only [h3]
      | none =>
        rw [hy] at h3
        simp at h3
  · simp only [patientParse, h1, patientStep2]
    cases hx : extractLastBrace (normalizePatient s) with
    | some c =>
      rw [hx] at h2
      simp only [Option.some_bind] at h2
      simp only [h2, patientStep3]
      cases hy : extractJsonObject (normalizePatient s) with
      | some c2 =>
        rw [hy] at h3
        simp only [Option.some_bind] at h3
        simp only [h3, patientStep4]
        cases hz : repairTruncated (normalizePatient s) with
        | some c3 =>
          rw [hz] at h4
          simp only [Option.some_bind] at h4
          simp only [h4]
        | none => rfl
      | none =>
        simp only [patientStep4]
        cases hz : repairTruncated (normalizePatient s) with
        | some c3 =>
          rw [hz] at h4
          simp only [Option.some_bind] at h4
          simp only [h4]
        | none => rfl
    | none =>
      simp only [patientStep3]
      cases hy : extractJsonObject (normalizePatient s) with
      | some c2 =>
        rw [hy] at h3
        simp only [Option.some_bind] at h3
        simp only [h3, patientStep4]
        cases hz : repairTruncated (normalizePatient s) with
        | some c3 =>
          rw [hz] at h4
          simp only [Option.some_bind] at h4
          simp only [h4]
        | none => rfl
      | none =>
        simp only [patientStep4]
        cases hz : repairTruncated (normalizePatient s) with
        | some c3 =>
          rw [hz] at h4
          simp only [Option.some_bind] at h4
          simp only [h4]
        | none => rfl

/-- Witness for C5 amended: the last-brace strategy recovers the payload
after leading prose. -/
theorem c5_cascade_order_witness :
    patientParse (toL "noise \x7b\"k\": true\x7d") = Json.obj [(toL "k", Json.bool true)] :=
  c5_cascade_order.2.1 (toL "noise \x7b\"k\": true\x7d") (toL "\x7b\"k\": true\x7d")
    (Json.obj [(toL "k", Json.bool true)]) rfl rfl rfl

/-- Membership in the first-seen string deduplication. -/
theorem mem_dedupStrGo : ∀ (l seen : List Str) (x : Str),
    x ∈ dedupStrGo seen l ↔ (x ∈ l ∧ x ∉ seen) := by
  intro l
  induction l with
  | nil => intro seen x; simp [dedupStrGo]
  | cons s t ih =>
    intro seen x
    by_cases h : s ∈ seen
    · rw [show dedupStrGo seen (s :: t) = dedupStrGo seen t by simp [dedupStrGo, h]]
      rw [ih]
      simp only [List.mem_cons]
      constructor
      · rintro ⟨hx, hns⟩
        exact ⟨Or.inr hx, hns⟩
      · rintro ⟨hor, hns⟩
        cases hor with
        | inl he => exact absurd (he ▸ h) hns
        | inr hx => exact ⟨hx, hns⟩
    · rw [show dedupStrGo seen (s :: t) = s :: dedupStrGo (s :: seen) t by
        simp [dedupStrGo, h]]
      simp only [List.mem_cons, ih]
      constructor
      · rintro (rfl | ⟨hx, hns⟩)
        · exact ⟨Or.inl rfl, h⟩
        · simp only [List.mem_cons, not_or] at hns
          exact ⟨Or.inr hx, hns.2⟩
      · rintro ⟨rfl | hx, hns⟩
        · exact Or.inl rfl
        · by_cases hxs : x = s
          · exact Or.inl hxs
          · exact Or.inr ⟨hx, by simp [List.mem_cons, hxs, hns]⟩

/-- The first-seen string deduplication yields distinct elements. -/
theorem nodup_dedupStrGo : ∀ (l seen : List Str), (dedupStrGo seen l).Nodup := by
  intro l
  induction l with
  | nil => intro seen; simp [dedupStrGo]
  | cons s t ih =>
    intro seen
    by_cases h : s ∈ seen
    · rw [show dedupStrGo seen (s :: t) = dedupStrGo seen t by simp [dedupStrGo, h]]
      exact ih seen
    · rw [show dedupStrGo seen (s :: t) = s :: dedupStrGo (s :: seen) t by
        simp [dedupStrGo, h]]
      refine List.nodup_cons.mpr ⟨?_, ih (s :: seen)⟩
      intro hmem
      exact ((mem_dedupStrGo t (s :: seen) s).mp hmem).2 (List.mem_cons_self s seen)

/-- C7 counterexample: a retrieved chunk with a source but no surviving
candidate still contributes its label, so the label set is not computed
over the surviving candidates. -/
theorem c7_label_without_survivor :
    (guidelineRun [⟨[], toL "x.txt"⟩]).recommendations = [] ∧
    (guidelineRun [⟨[], toL "x.txt"⟩]).retrieved_sources = [toL "x"] ∧
    (toL "x" : Str) ≠ [] := by
  exact ⟨rfl, rfl, by decide⟩

/-- C7 amended: the distinct source labels are computed from all
retrieved chunks with a truthy source field, independently of the
surviving candidates; each distinct label appears once, and the modelled
order is first insertion (the source builds a Python set, whose
iteration order the language does not fix). -/
theorem c7_labels_from_all_chunks :
    (∀ (chunks : List Chunk) (x : Str),
      x ∈ runSources chunks ↔
        ∃ c ∈ chunks, c.source.isEmpty = false ∧ labelOf c.source = x) ∧
    (∀ chunks : List Chunk, (runSources chunks).Nodup) := by
  constructor
  · intro chunks x
    rw [runSources, mem_dedupStrGo]
    simp only [List.mem_filterMap, List.not_mem_nil, not_false_iff, and_true]
    constructor
    · rintro ⟨c, hc, hf⟩
      by_cases he : c.source.isEmpty
      · simp [he] at hf
      · simp only [he, if_false] at hf
        exact ⟨c, hc, by simpa using he, by injection hf⟩
    · rintro ⟨c, hc, he, hl⟩
      refine ⟨c, hc, ?_⟩
      simp [he, hl]
  · intro chunks
    exact nodup_dedupStrGo _ []

/-- Unfolding of the keep-first specification at a cons cell. -/
theorem specKeepFirst_cons (e : GEntry) (t : List GEntry) :
    specKeepFirst (e :: t) =
      e :: specKeepFirst (t.filter (fun x => entryKey x ≠ entryKey e)) := by
  rw [specKeepFirst.eq_def]

/-- The seen-set deduplication loop equals the keep-first specification
applied to the unseen remainder. -/
theorem dedupGo_eq_spec : ∀ (l : List GEntry) (seen : List Str),
    dedupGo seen l = specKeepFirst (l.filter (fun x => decide (entryKey x ∉ seen))) := by
  intro l
  induction l with
  | nil => intro seen; simp [dedupGo, specKeepFirst]
  | cons e t ih =>
    intro seen
    by_cases h : entryKey e ∈ seen
    · rw [show dedupGo seen (e :: t) = dedupGo seen t by simp [dedupGo, h]]
      rw [List.filter_cons]
      have hd : (decide (entryKey e ∉ seen)) = false := by simp [h]
      rw [hd]
      simpa using ih seen
    · rw [show dedupGo seen (e :: t) = e :: dedupGo (entryKey e :: seen) t by
        simp [dedupGo, h]]
      rw [List.filter_cons]
      have hd : (decide (entryKey e ∉ seen)) = true := by simp [h]
      rw [hd]
      simp only [eq_self_iff_true, if_true]
      rw [specKeepFirst_cons]
      congr 1
      rw [ih (entryKey e :: seen)]
      congr 1
      rw [List.filter_filter]
      apply List.filter_congr
      intro x _
      simp only [← Bool.decide_and]
      apply decide_eq_decide.mpr
      simp [List.mem_cons, not_or, and_comm]

/-- C6: the aggregator keeps exactly the first candidate per normalized
key (the case-folded first eighty characters of the recommendation), in
first-appearance order; concretely, two passages carrying the same
recommendation up to whitespace yield one entry carrying the first-seen
passage's label. -/
theorem c6_dedup_keeps_first :
    (∀ l : List GEntry, dedupEntries l = specKeepFirst l) ∧
    (guidelineRun
      [⟨toL "- Patients should receive assessment X.\n", toL "g1.txt"⟩,
       ⟨toL "- Patients  should   receive assessment X.\n", toL "g2.txt"⟩]).recommendations =
      [{ category := toL "Management",
         recommendation := toL "Patients should receive assessment X.",
         source := toL "g1",
         confidence := toL "Direct" }] := by
  constructor
  · intro l
    rw [dedupEntries, dedupGo_eq_spec]
    congr 1
    exact List.filter_eq_self.mpr (fun a _ => by simp)
  · rfl

/-- C8 counterexample: a well-formed object whose string content looks
like a thinking block is corrupted by normalization, so recovery does
not equal the direct parse; and normalization is not idempotent, since
fence stripping can synthesize a delimiter that only the second pass
removes. -/
theorem c8_normalization_not_inert :
    patientParse (toL "\x7b\"a\": \"<unused1>x<unused2>\"\x7d") =
      Json.obj [(toL "a", Json.str [])] ∧
    jsonLoads (toL "\x7b\"a\": \"<unused1>x<unused2>\"\x7d") =
      some (Json.obj [(toL "a", Json.str (toL "<unused1>x<unused2>"))]) ∧
    strField (Json.obj [(toL "a", Json.str [])]) (toL "a") = [] ∧
    strField (Json.obj [(toL "a", Json.str (toL "<unused1>x<unused2>"))]) (toL "a") =
      toL "<unused1>x<unused2>" ∧
    (toL "<unused1>x<unused2>" : Str) ≠ [] ∧
    normalizePatient (normalizePatient (toL "\x7b\"a\":1\x7d<unu```sed1>\x7bx")) ≠
      normalizePatient (toL "\x7b\"a\":1\x7d<unu```sed1>\x7bx") := by
  exact ⟨rfl, rfl, rfl, rfl, by decide, by decide⟩

/-- C8 amended: restricted to text that normalization leaves unchanged,
recovery equals the direct parse (it succeeds on the first strategy),
normalization is idempotent there, and likewise on the SOAP path. -/
theorem c8_recover_on_normalized (t : Str) (v : Json)
    (hfix : normalizePatient t = t) (hv : jsonLoads t = some v) :
    patientParse t = v ∧
    normalizePatient (normalizePatient t) = normalizePatient t ∧
    (normalizeSoap t = t → soapParse t = v) := by
  refine ⟨?_, by rw [hfix, hfix], fun hs => ?_⟩
  · simp only [patientParse, hfix, hv]
  · simp only [soapParse, hs, hv]

/-- Witness for C8 amended at a plain well-formed object. -/
theorem c8_recover_on_normalized_witness :
    patientParse (toL "\x7b\"a\":1\x7d") = Json.obj [(toL "a", Json.num (toL "1"))] ∧
    normalizePatient (normalizePatient (toL "\x7b\"a\":1\x7d")) =
      normalizePatient (toL "\x7b\"a\":1\x7d") ∧
    (normalizeSoap (toL "\x7b\"a\":1\x7d") = toL "\x7b\"a\":1\x7d" →
      soapParse (toL "\x7b\"a\":1\x7d") = Json.obj [(toL "a", Json.num (toL "1"))]) :=
  c8_recover_on_normalized (toL "\x7b\"a\":1\x7d")
    (Json.obj [(toL "a", Json.num (toL "1"))]) rfl rfl

/-- A flush in skip state emits nothing. -/
theorem flushEntry_of_skip (lbl : Str) (st : GState) (h : st.skip = true) :
    flushEntry lbl st = none := by
  unfold flushEntry
  cases st.pending with
  | none => rfl
  | some b => simp [h]

/-- A successful flush requires a truthy pending bullet and tags the
candidate with the category at flush time. -/
theorem flushEntry_eq_some (lbl : Str) (st : GState) (e : GEntry)
    (h : flushEntry lbl st = some e) :
    pendTruthy st.pending = true ∧ e.category = st.category := by
  unfold flushEntry at h
  split at h
  · exact absurd h (by simp)
  · rename_i b heq
    split at h
    · exact absurd h (by simp)
    · split at h
      · exact absurd h (by simp)
      · have h2 : (if (pyStrip (collapseWs b)).length < 25 then (none : Option GEntry)
            else if incompleteEnd (pyStrip (collapseWs b)) = true then none
            else some { category := st.category,
                        recommendation := pyStrip (collapseWs b),
                        source := lbl,
                        confidence := confidenceOf (pyStrip (collapseWs b)) }) = some e := h
        split at h2
        · exact absurd h2 (by simp)
        · split at h2
          · exact absurd h2 (by simp)
          · rename_i h1 hskip hlen hinc
            injection h2 with h5
            refine ⟨?_, by rw [← h5]⟩
            rw [heq]
            cases b with
            | nil => exact absurd rfl h1
            | cons c r => rfl

/-- A non-header line preserves skip state and emits nothing while the
skip flag is set. -/
theorem stepLine_skip (lbl l : Str) (st : GState)
    (h : st.skip = true) (hl : ¬ headerLine l) :
    (stepLine lbl st l).2 = [] ∧ (stepLine lbl st l).1.skip = true := by
  unfold stepLine
  by_cases hemp : (pyStrip l).isEmpty
  · simp [hemp, h]
  · have hhd : isHeader (pyStrip l) = false := by
      by_contra hx
      exact hl ⟨by simpa using hemp, by simpa using hx⟩
    by_cases hbul : List.isPrefixOf ['-', ' '] (pyStrip l) = true
    · simp [hemp, hhd, hbul, flushEntry_of_skip lbl st h, h]
    · cases hp : st.pending with
      | none => simp [hemp, hhd, hbul, hp, h]
      | some b =>
        cases b with
        | nil => simp [hemp, hhd, hbul, hp, h]
        | cons c r =>
          by_cases hind : List.isPrefixOf [' ', ' '] l = true
          · simp [hemp, hhd, hbul, hp, hind, h]
          · simp [hemp, hhd, hbul, hp, hind, h]

/-- Running header-free lines from skip state emits nothing and stays in
skip state. -/
theorem runLines_skip (lbl : Str) : ∀ (ls : List Str) (st : GState),
    st.skip = true → (∀ l ∈ ls, ¬ headerLine l) →
    (runLines lbl st ls).2 = [] ∧ (runLines lbl st ls).1.skip = true := by
  intro ls
  induction ls with
  | nil => intro st h _; exact ⟨rfl, h⟩
  | cons l t ih =>
    intro st h hall
    have hstep := stepLine_skip lbl l st h (hall l (by simp))
    have hrec := ih (stepLine lbl st l).1 hstep.2 (fun x hx => hall x (by simp [hx]))
    unfold runLines
    exact ⟨by simp [hstep.1, hrec.1], hrec.2⟩

/-- C9: a header matching the excluded-topic pattern sets the skip flag;
until the next header every flush is discarded, so the section's bullets
produce zero candidates, including a bullet still pending at the end of
the section. -/
theorem c9_skip_section_zero_candidates (lbl : Str) (st : GState) (h : Str)
    (mid : List Str) (hh : headerLine h)
    (hsk : skipMatch (lowerStr (pyStrip h)) = true)
    (hmid : ∀ l ∈ mid, ¬ headerLine l) :
    (runLines lbl (stepLine lbl st h).1 mid).2 = [] ∧
    (runLines lbl (stepLine lbl st h).1 mid).1.skip = true ∧
    flushEntry lbl (runLines lbl (stepLine lbl st h).1 mid).1 = none := by
  have h1 : (stepLine lbl st h).1.skip = true := by
    unfold stepLine
    simp [hh.1, hh.2, hsk]
  have h2 := runLines_skip lbl mid (stepLine lbl st h).1 h1 hmid
  exact ⟨h2.1, h2.2, flushEntry_of_skip lbl _ h2.2⟩

/-- Witness for C9 at a diagnostic-criteria header followed by a bullet
that would otherwise survive the flush filter. -/
theorem c9_skip_section_zero_candidates_witness :
    (runLines (toL "G") (stepLine (toL "G") initGState (toL "DIAGNOSTIC CRITERIA")).1
      [toL "- Honeycombing with traction bronchiectasis present."]).2 = [] ∧
    (runLines (toL "G") (stepLine (toL "G") initGState (toL "DIAGNOSTIC CRITERIA")).1
      [toL "- Honeycombing with traction bronchiectasis present."]).1.skip = true ∧
    flushEntry (toL "G")
      (runLines (toL "G") (stepLine (toL "G") initGState (toL "DIAGNOSTIC CRITERIA")).1
        [toL "- Honeycombing with traction bronchiectasis present."]).1 = none :=
  c9_skip_section_zero_candidates (toL "G") initGState (toL "DIAGNOSTIC CRITERIA")
    [toL "- Honeycombing with traction bronchiectasis present."]
    (by decide) (by decide) (by decide)

/-- A line hitting no category keyword reclassifies to the fallback. -/
theorem categoryFrom_of_not_hit (l fb : Str) (h : catHit l = false) :
    categoryFrom l fb = fb := by
  unfold catHit at h
  simp only [Bool.or_eq_false_iff] at h
  unfold categoryFrom
  simp [h.1.1.1, h.1.1.2, h.1.2, h.2]

/-- With no header and no keyword-matching paragraph step, a step
preserves the Management category and emits only Management candidates;
bullet and continuation lines never reclassify, whatever keywords their
text contains. -/
theorem stepLine_mgmt_nokw (lbl l : Str) (st : GState)
    (hcat : st.category = toL "Management")
    (hl : ¬ headerLine l)
    (hkw : isParagraphStep st l = true → catHit (pyStrip l) = false) :
    (∀ e ∈ (stepLine lbl st l).2, e.category = toL "Management") ∧
    (stepLine lbl st l).1.category = toL "Management" := by
  by_cases hemp : (pyStrip l).isEmpty
  · have hs : stepLine lbl st l = (st, []) := by
      unfold stepLine; simp [hemp]
    rw [hs]
    exact ⟨fun e he => absurd he (by simp), hcat⟩
  · have hhd : isHeader (pyStrip l) = false := by
      by_contra hx
      exact hl ⟨by simpa using hemp, by simpa using hx⟩
    by_cases hbul : List.isPrefixOf ['-', ' '] (pyStrip l) = true
    · have hs : stepLine lbl st l =
          ({ category := st.category, skip := st.skip,
             pending := some (pyStrip (List.drop 2 (pyStrip l))) },
           (flushEntry lbl st).toList) := by
        unfold stepLine; simp [hemp, hhd, hbul]
      rw [hs]
      refine ⟨?_, hcat⟩
      intro e he
      have hsome : flushEntry lbl st = some e := by
        simpa [Option.mem_toList, Option.mem_def] using he
      exact ((flushEntry_eq_some lbl st e hsome).2).trans hcat
    · cases hp : st.pending with
      | none =>
        have hpar : isParagraphStep st l = true := by
          simp [isParagraphStep, hemp, hhd, hbul, hp, pendTruthy]
        have hs : stepLine lbl st l =
            ({ category := categoryFrom (pyStrip l) st.category, skip := st.skip,
               pending := none }, []) := by
          unfold stepLine; simp [hemp, hhd, hbul, hp]
        rw [hs]
        exact ⟨fun e he => absurd he (by simp),
          by simp [categoryFrom_of_not_hit _ _ (hkw hpar), hcat]⟩
      | some b =>
        cases b with
        | nil =>
          have hpar : isParagraphStep st l = true := by
            simp [isParagraphStep, hemp, hhd, hbul, hp, pendTruthy]
          have hs : stepLine lbl st l =
              ({ category := categoryFrom (pyStrip l) st.category, skip := st.skip,
                 pending := some [] }, []) := by
            unfold stepLine; simp [hemp, hhd, hbul, hp]
          rw [hs]
          exact ⟨fun e he => absurd he (by simp),
            by simp [categoryFrom_of_not_hit _ _ (hkw hpar), hcat]⟩
        | cons c r =>
          by_cases hind : List.isPrefixOf [' ', ' '] l = true
          · have hs : stepLine lbl st l =
                ({ category := st.category, skip := st.skip,
                   pending := some ((c :: r) ++ ' ' :: pyStrip l) }, []) := by
              unfold stepLine; simp [hemp, hhd, hbul, hp, hind]
            rw [hs]
            exact ⟨fun e he => absurd he (by simp), hcat⟩
          · have hs : stepLine lbl st l = (st, []) := by
              unfold stepLine; simp [hemp, hhd, hbul, hp, hind]
            rw [hs]
            exact ⟨fun e he => absurd he (by simp), hcat⟩

/-- Running lines with no header and no keyword-matching paragraph step
keeps the Management category and emits only Management candidates. -/
theorem runLines_mgmt_nokw (lbl : Str) : ∀ (ls : List Str) (st : GState),
    st.category = toL "Management" →
    (∀ l ∈ ls, ¬ headerLine l) →
    noKeywordParagraphB lbl st ls = true →
    (∀ e ∈ (runLines lbl st ls).2, e.category = toL "Management") ∧
    (runLines lbl st ls).1.category = toL "Management" := by
  intro ls
  induction ls with
  | nil => intro st h _ _; exact ⟨by simp [runLines], h⟩
  | cons l t ih =>
    intro st h hall hkw
    rw [show noKeywordParagraphB lbl st (l :: t) =
        ((!(isParagraphStep st l) || !(catHit (pyStrip l))) &&
          noKeywordParagraphB lbl (stepLine lbl st l).1 t) from rfl] at hkw
    rw [Bool.and_eq_true] at hkw
    have hkw1 : isParagraphStep st l = true → catHit (pyStrip l) = false := by
      intro hp
      have h2 := hkw.1
      rw [hp] at h2
      simpa using h2
    have hstep := stepLine_mgmt_nokw lbl l st h (hall l (by simp)) hkw1
    have hrec := ih (stepLine lbl st l).1 hstep.2 (fun x hx => hall x (by simp [hx])) hkw.2
    unfold runLines
    refine ⟨?_, hrec.2⟩
    intro e he
    rcases List.mem_append.mp he with h1 | h2
    · exact hstep.1 e h1
    · exact hrec.1 e h2

/-- Unfolding of the line runner at a cons cell. -/
theorem runLines_cons (lbl y : Str) (st : GState) (ls : List Str) :
    runLines lbl st (y :: ls) =
      ((runLines lbl (stepLine lbl st y).1 ls).1,
       (stepLine lbl st y).2 ++ (runLines lbl (stepLine lbl st y).1 ls).2) := rfl

/-- Running a concatenation of line lists composes state and
concatenates candidate lists. -/
theorem runLines_append (lbl : Str) : ∀ (xs ys : List Str) (st : GState),
    runLines lbl st (xs ++ ys) =
      ((runLines lbl (runLines lbl st xs).1 ys).1,
       (runLines lbl st xs).2 ++ (runLines lbl (runLines lbl st xs).1 ys).2) := by
  intro xs
  induction xs with
  | nil => intro ys st; simp [runLines]
  | cons x t ih =>
    intro ys st
    rw [List.cons_append, runLines_cons, ih, runLines_cons lbl x st t]
    simp [List.append_assoc]

/-- After the split point, when every bullet begun there is doomed to a
silent flush, the run emits only Management candidates (at most the
flush of the carried-over bullet) and so does the end-of-passage
flush. -/
theorem runLines_mgmt_dies (lbl : Str) : ∀ (ls : List Str) (st : GState),
    (pendTruthy st.pending = true →
      st.category = toL "Management" ∨ pendingDiesB lbl st ls = true) →
    (∀ mid l tail, ls = mid ++ l :: tail → bulletLine l →
      pendingDiesB lbl (runLines lbl st (mid ++ [l])).1 tail = true) →
    (∀ e ∈ (runLines lbl st ls).2, e.category = toL "Management") ∧
    (∀ e, flushEntry lbl (runLines lbl st ls).1 = some e →
      e.category = toL "Management") := by
  intro ls
  induction ls with
  | nil =>
    intro st hinv _
    constructor
    · intro e he
      exact absurd he (by simp [runLines])
    · intro e hf
      have hf2 : flushEntry lbl st = some e := hf
      have hfs := flushEntry_eq_some lbl st e hf2
      rcases hinv hfs.1 with hM | hdies
      · exact hfs.2.trans hM
      · rw [show pendingDiesB lbl st [] = (flushEntry lbl st).isNone from rfl, hf2] at hdies
        exact absurd hdies (by simp)
  | cons l t ih =>
    intro st hinv H
    have H2 : ∀ mid l2 tail, t = mid ++ l2 :: tail → bulletLine l2 →
        pendingDiesB lbl (runLines lbl (stepLine lbl st l).1 (mid ++ [l2])).1 tail = true := by
      intro mid l2 tail heq hb
      exact H (l :: mid) l2 tail (by rw [heq]; rfl) hb
    have key : (∀ e ∈ (stepLine lbl st l).2, e.category = toL "Management") ∧
        (pendTruthy (stepLine lbl st l).1.pending = true →
          (stepLine lbl st l).1.category = toL "Management" ∨
          pendingDiesB lbl (stepLine lbl st l).1 t = true) := by
      by_cases hemp : (pyStrip l).isEmpty
      · have hs : stepLine lbl st l = (st, []) := by
          unfold stepLine; simp [hemp]
        have hPD : pendingDiesB lbl st (l :: t) = pendingDiesB lbl st t := by
          simp only [pendingDiesB]
          simp [hemp]
        rw [hs]
        refine ⟨fun e he => absurd he (by simp), fun ht => ?_⟩
        rcases hinv ht with hM | hdies
        · exact Or.inl hM
        · exact Or.inr (hPD ▸ hdies)
      · by_cases hhd : isHeader (pyStrip l) = true
        · have hs : stepLine lbl st l =
              ({ category := if skipMatch (lowerStr (pyStrip l)) = true then st.category
                   else categoryFrom (pyStrip l) st.category,
                 skip := skipMatch (lowerStr (pyStrip l)), pending := none },
               (flushEntry lbl st).toList) := by
            unfold stepLine; simp [hemp, hhd]
          have hPD : pendingDiesB lbl st (l :: t) = (flushEntry lbl st).isNone := by
            simp only [pendingDiesB]
            simp [hemp, hhd]
          constructor
          · intro e he
            rw [hs] at he
            have hsome : flushEntry lbl st = some e := by
              simpa [Option.mem_toList, Option.mem_def] using he
            have hfs := flushEntry_eq_some lbl st e hsome
            rcases hinv hfs.1 with hM | hdies
            · exact hfs.2.trans hM
            · rw [hPD, hsome] at hdies
              exact absurd hdies (by simp)
          · intro ht
            rw [hs] at ht
            exact absurd ht (by simp [pendTruthy])
        · by_cases hbul : List.isPrefixOf ['-', ' '] (pyStrip l) = true
          · have hB : bulletLine l := ⟨by simpa using hemp, by simpa using hhd, hbul⟩
            have hs : stepLine lbl st l =
                ({ category := st.category, skip := st.skip,
                   pending := some (pyStrip (List.drop 2 (pyStrip l))) },
                 (flushEntry lbl st).toList) := by
              unfold stepLine; simp [hemp, hhd, hbul]
            have hPD : pendingDiesB lbl st (l :: t) = (flushEntry lbl st).isNone := by
              simp only [pendingDiesB]
              simp [hemp, hhd, hbul]
            constructor
            · intro e he
              rw [hs] at he
              have hsome : flushEntry lbl st = some e := by
                simpa [Option.mem_toList, Option.mem_def] using he
              have hfs := flushEntry_eq_some lbl st e hsome
              rcases hinv hfs.1 with hM | hdies
              · exact hfs.2.trans hM
              · rw [hPD, hsome] at hdies
                exact absurd hdies (by simp)
            · intro ht
              exact Or.inr (H [] l t rfl hB)
          · cases hp : st.pending with
            | none =>
              have hs : stepLine lbl st l =
                  ({ category := categoryFrom (pyStrip l) st.category, skip := st.skip,
                     pending := none }, []) := by
                unfold stepLine; simp [hemp, hhd, hbul, hp]
              rw [hs]
              refine ⟨fun e he => absurd he (by simp), fun ht => ?_⟩
              exact absurd ht (by simp [pendTruthy])
            | some b =>
              cases b with
              | nil =>
                have hs : stepLine lbl st l =
                    ({ category := categoryFrom (pyStrip l) st.category, skip := st.skip,
                       pending := some [] }, []) := by
                  unfold stepLine; simp [hemp, hhd, hbul, hp]
                rw [hs]
                refine ⟨fun e he => absurd he (by simp), fun ht => ?_⟩
                exact absurd ht (by simp [pendTruthy])
              | cons c r =>
                have htr : pendTruthy st.pending = true := by rw [hp]; rfl
                have hPD : pendingDiesB lbl st (l :: t)
                    = pendingDiesB lbl (stepLine lbl st l).1 t := by
                  simp only [pendingDiesB]
                  simp [hemp, hhd, hbul]
                by_cases hind : List.isPrefixOf [' ', ' '] l = true
                · have hs : stepLine lbl st l =
                      ({ category := st.category, skip := st.skip,
                         pending := some ((c :: r) ++ ' ' :: pyStrip l) }, []) := by
                    unfold stepLine; simp [hemp, hhd, hbul, hp, hind]
                  refine ⟨?_, fun ht => ?_⟩
                  · rw [hs]
                    exact fun e he => absurd he (by simp)
                  · rcases hinv htr with hM | hdies
                    · rw [hs]
                      exact Or.inl hM
                    · exact Or.inr (hPD ▸ hdies)
                · have hs : stepLine lbl st l = (st, []) := by
                    unfold stepLine; simp [hemp, hhd, hbul, hp, hind]
                  refine ⟨?_, fun ht => ?_⟩
                  · rw [hs]
                    exact fun e he => absurd he (by simp)
                  · rcases hinv htr with hM | hdies
                    · rw [hs]
                      exact Or.inl hM
                    · exact Or.inr (hPD ▸ hdies)
    have hrec := ih (stepLine lbl st l).1 key.2 H2
    constructor
    · intro e he
      have he2 : e ∈ (stepLine lbl st l).2 ++ (runLines lbl (stepLine lbl st l).1 t).2 := he
      rcases List.mem_append.mp he2 with h1 | h2
      · exact key.1 e h1
      · exact hrec.1 e h2
    · intro e hf
      have hf2 : flushEntry lbl (runLines lbl (stepLine lbl st l).1 t).1 = some e := hf
      exact hrec.2 e hf2

/-- C10: the classifier's initial active category is Management; in a
passage splitting as pre followed by rest, where pre contains no header
line and no category-keyword plain paragraph (bullet and continuation
lines may carry keywords freely, since those branches never
reclassify), and every bullet begun in rest is non-surviving (its flush
emits nothing), every emitted candidate carries category Management. -/
theorem c10_default_category (c : Chunk) (pre rest : List Str)
    (hsplit : splitLines c.text = pre ++ rest)
    (hpre : ∀ l ∈ pre, ¬ headerLine l)
    (hprekw : noKeywordParagraphB (labelOf c.source) initGState pre = true)
    (hrest : ∀ mid l tail, rest = mid ++ l :: tail → bulletLine l →
      pendingDiesB (labelOf c.source)
        (runLines (labelOf c.source)
          (runLines (labelOf c.source) initGState pre).1 (mid ++ [l])).1 tail = true) :
    ∀ e ∈ parseChunk c, e.category = toL "Management" := by
  intro e he
  simp only [parseChunk] at he
  rw [hsplit] at he
  rw [runLines_append (labelOf c.source) pre rest initGState] at he
  have hA := runLines_mgmt_nokw (labelOf c.source) pre initGState rfl hpre hprekw
  have hInv : pendTruthy (runLines (labelOf c.source) initGState pre).1.pending = true →
      (runLines (labelOf c.source) initGState pre).1.category = toL "Management" ∨
      pendingDiesB (labelOf c.source) (runLines (labelOf c.source) initGState pre).1 rest
        = true :=
    fun _ => Or.inl hA.2
  have hB := runLines_mgmt_dies (labelOf c.source) rest
    (runLines (labelOf c.source) initGState pre).1 hInv hrest
  simp only [List.mem_append, Option.mem_toList, Option.mem_def] at he
  rcases he with (hp | hr) | h2
  · exact hA.1 e hp
  · exact hB.1 e hr
  · exact hB.2 e h2

/-- Witness for C10: a surviving bullet carrying category keywords in
its own text precedes a Monitoring header, after which the only bullet
is too short to survive; the surviving candidate carries Management. -/
theorem c10_default_category_witness :
    ({ category := toL "Management",
       recommendation := toL "Offer antifibrotic therapy to all patients now.",
       source := toL "g",
       confidence := toL "Low-evidence" } : GEntry).category = toL "Management" :=
  c10_default_category
    ⟨toL "- Offer antifibrotic therapy to all patients now.\nMONITORING SCHEDULE\n- short.",
     toL "g.txt"⟩
    [toL "- Offer antifibrotic therapy to all patients now."]
    [toL "MONITORING SCHEDULE", toL "- short."]
    (by decide) (by decide) (by decide)
    (by
      intro mid l tail heq hb
      cases mid with
      | nil =>
        injection heq with h1 h2
        subst h1
        exact absurd hb (by decide)
      | cons x mt =>
        injection heq with h1 h2
        cases mt with
        | nil =>
          injection h2 with h3 h4
          subst h1
          subst h3
          subst h4
          decide
        | cons y t2 =>
          injection h2 with h3 h4
          simp at h4)
    _ (by decide)

end MedAssist
